import Mathlib

/-!
Verification of the voronoi-rs repository: a shallow embedding of
`src/diagram.rs` and `src/build.rs` in Lean 4, with theorems settling the
spec's claims about the diagram builder, its event queue, and the geometric
kernel.

Coordinates are `f32` in the source.  The builder-level code performs only
comparisons and additions on coordinates, so it is embedded over `ℚ`
(exact, decidable).  The geometric kernel (`circumcircle_of_points`,
`intersection`) takes square roots, so it is embedded over `ℝ`.
-/

namespace Voronoi

/-! ## `src/diagram.rs`: the DCEL output container -/

/-- `VertexId(u32)` of diagram.rs. -/
structure VertexId where
  val : ℕ
  deriving DecidableEq

/-- `HalfEdgeId(u32)` of diagram.rs. -/
structure HalfEdgeId where
  val : ℕ
  deriving DecidableEq

/-- `FaceId(u32)` of diagram.rs. -/
structure FaceId where
  val : ℕ
  deriving DecidableEq

/-- `Vertex` of diagram.rs. -/
structure Vertex where
  coordinates : ℚ × ℚ
  incident_edge : HalfEdgeId
  deriving DecidableEq

/-- `HalfEdge` of diagram.rs. -/
structure HalfEdge where
  origin : VertexId
  twin : HalfEdgeId
  incident_face : FaceId
  next : HalfEdgeId
  prev : HalfEdgeId
  deriving DecidableEq

/-- `Face` of diagram.rs. -/
structure Face where
  first_halfedge : HalfEdgeId
  deriving DecidableEq

/-- `Diagram` of diagram.rs: three indexed vectors. -/
structure Diagram where
  vertices : List Vertex
  halfedges : List HalfEdge
  faces : List Face
  deriving DecidableEq

/-- `Diagram::default()` (the `#[derive(Default)]` instance): all three
vectors empty. -/
def Diagram.default : Diagram :=
  { vertices := [], halfedges := [], faces := [] }

/-- `Diagram::get_vertex`: `self.vertices.get(vertex_id.0 as usize)`. -/
def Diagram.get_vertex (d : Diagram) (vertex_id : VertexId) : Option Vertex :=
  d.vertices[vertex_id.val]?

/-- `Diagram::get_half_edge`: `self.halfedges.get(halfedge_id.0 as usize)`. -/
def Diagram.get_half_edge (d : Diagram) (halfedge_id : HalfEdgeId) : Option HalfEdge :=
  d.halfedges[halfedge_id.val]?

/-- `Diagram::get_face`: `self.faces.get(face_id.0 as usize)`. -/
def Diagram.get_face (d : Diagram) (face_id : FaceId) : Option Face :=
  d.faces[face_id.val]?

/-! ## `src/build.rs`: input data, events, and the builder -/

/-- `Rect` of build.rs. -/
structure Rect where
  position : ℚ × ℚ
  size : ℚ × ℚ
  deriving DecidableEq

/-- `Rect::left`. -/
def Rect.left (r : Rect) : ℚ := r.position.1

/-- `Rect::top`. -/
def Rect.top (r : Rect) : ℚ := r.position.2

/-- `Rect::right`. -/
def Rect.right (r : Rect) : ℚ := r.position.1 + r.size.1

/-- `Rect::bottom`. -/
def Rect.bottom (r : Rect) : ℚ := r.position.2 + r.size.2

/-- `Rect::contains_point`: all four comparisons strict, exactly as in the
source. -/
def Rect.contains_point (r : Rect) (point : ℚ × ℚ) : Bool :=
  point.1 > r.left && point.2 > r.top && point.1 < r.right && point.2 < r.bottom

/-- `SiteId(u32)` of build.rs. -/
structure SiteId where
  val : ℕ
  deriving DecidableEq

/-- `Site` of build.rs. -/
structure Site where
  position : ℚ × ℚ
  deriving DecidableEq

/-- `CircleId(u32)` of build.rs. -/
structure CircleId where
  val : ℕ
  deriving DecidableEq

/-- `ArcId(u32)` of build.rs. -/
structure ArcId where
  val : ℕ
  deriving DecidableEq

/-- `EdgeId(u32)` of build.rs. -/
structure EdgeId where
  val : ℕ
  deriving DecidableEq

/-- `Circle` of build.rs. -/
structure Circle where
  position : ℚ × ℚ
  radius : ℚ
  arc : ArcId
  deriving DecidableEq

/-- `Event` of build.rs: a site event or a circle event, each carrying its
sweep coordinate. -/
inductive Event where
  | Site : ℚ → SiteId → Event
  | Circle : ℚ → CircleId → Event
  deriving DecidableEq

/-- `Event::get_y`. -/
def Event.get_y : Event → ℚ
  | Event.Site y _ => y
  | Event.Circle y _ => y

/-- The result of `f32::partial_cmp` on two non-NaN values (over `ℚ` the
comparison is total, so the option is always `some`). -/
def cmpRat (x y : ℚ) : Option Ordering :=
  some (if x < y then Ordering.lt else if x = y then Ordering.eq else Ordering.gt)

/-- `impl Ord for Event`: the sweep coordinates are negated (making the Rust
max-heap pop the smallest `y` first), compared with `partial_cmp`, and the
`None` case (impossible without NaN) is collapsed with `unwrap_or(Less)`.
No field other than `y` takes part in the comparison. -/
def Event.cmp (e1 e2 : Event) : Ordering :=
  (cmpRat (-e1.get_y) (-e2.get_y)).getD Ordering.lt

/-- `BeachLineNode` of build.rs (never constructed by the live code; part of
the builder's state). -/
inductive BeachLineNode where
  | Inner : BeachLineNode → BeachLineNode → EdgeId → BeachLineNode
  | Leaf : ArcId → SiteId → Option CircleId → BeachLineNode
  deriving DecidableEq

/-- `DiagramBuilder` of build.rs.  The `circles` map (`FnvHashMap`) is
embedded as an association list; the `event_queue` (`BinaryHeap`) as the
list of queued events, popped with `popMax` below.  The Rust field `step`
is named `step_count` here because the struct also has a method `step`. -/
structure DiagramBuilder where
  sites : List Site
  circles : List (CircleId × Circle)
  event_queue : List Event
  beachline : Option BeachLineNode
  step_count : ℕ
  total_events : ℕ
  cancelled_events : ℕ
  debug : Bool
  deriving DecidableEq

/-- The seeding loop of `DiagramBuilder::new`: one `Event::Site` per site
whose position satisfies `contains_point`, indexed by `enumerate`. -/
def seedEvents (bounding_rect : Rect) : List Site → ℕ → List Event
  | [], _ => []
  | s :: rest, i =>
    if bounding_rect.contains_point s.position then
      Event.Site s.position.2 ⟨i⟩ :: seedEvents bounding_rect rest (i + 1)
    else
      seedEvents bounding_rect rest (i + 1)

/-- `DiagramBuilder::new`. -/
def DiagramBuilder.new (bounding_rect : Rect) (sites : List Site) : DiagramBuilder :=
  { sites := sites
    circles := []
    event_queue := seedEvents bounding_rect sites 0
    beachline := none
    step_count := 0
    total_events := 0
    cancelled_events := 0
    debug := false }

/-- `DiagramBuilder::handle_site_event`: its entire body is commented out in
the source, so it leaves the builder unchanged. -/
def DiagramBuilder.handle_site_event (b : DiagramBuilder) (_site : Site) : DiagramBuilder :=
  b

/-- `DiagramBuilder::handle_circle_event`: its entire body is commented out
in the source, so it leaves the builder unchanged. -/
def DiagramBuilder.handle_circle_event (b : DiagramBuilder) (_circle : Circle) : DiagramBuilder :=
  b

/-- `BinaryHeap::pop`: removes and returns a maximum element under
`Event.cmp` (`none` on the empty heap).  Among elements comparing `Equal`
the heap's choice is unspecified in Rust; this embedding keeps the leftmost. -/
def popMax : List Event → Option (Event × List Event)
  | [] => none
  | e :: rest =>
    match popMax rest with
    | none => some (e, [])
    | some (m, rest') =>
      if Event.cmp e m = Ordering.lt then some (m, e :: rest') else some (e, rest)

/-- `FnvHashMap::remove` on the association-list embedding of `circles`:
the removed value (if the key is present) and the remaining map. -/
def mapRemove (m : List (CircleId × Circle)) (key : CircleId) :
    Option Circle × List (CircleId × Circle) :=
  match m with
  | [] => (none, [])
  | (k, v) :: rest =>
    if k = key then (some v, rest)
    else
      let (r, rest') := mapRemove rest key
      (r, (k, v) :: rest')

/-- `DiagramBuilder::step`.  Returns `none` where the Rust code would abort
(the `self.sites[site_id.0 as usize]` indexing out of range), otherwise
`some (done, builder')` where `done = true` exactly on an empty queue.
Debug printing is I/O and is omitted. -/
def DiagramBuilder.step (b : DiagramBuilder) : Option (Bool × DiagramBuilder) :=
  let b := { b with step_count := (b.step_count + 1) % 2 ^ 32 }
  match popMax b.event_queue with
  | none => some (true, b)
  | some (Event.Site _y site_id, rest) =>
    match b.sites[site_id.val]? with
    | none => none
    | some site =>
      some (false, DiagramBuilder.handle_site_event { b with event_queue := rest } site)
  | some (Event.Circle _y circle_id, rest) =>
    let b := { b with event_queue := rest }
    match mapRemove b.circles circle_id with
    | (some circle, circles') =>
      some (false, DiagramBuilder.handle_circle_event { b with circles := circles' } circle)
    | (none, _) => some (false, b)

/-- `popMax` succeeds exactly on a nonempty queue. -/
theorem popMax_eq_none_iff (q : List Event) : popMax q = none ↔ q = [] := by
  cases q with
  | nil => simp [popMax]
  | cons a t =>
    rw [popMax]
    cases ht : popMax t with
    | none => simp
    | some p =>
      obtain ⟨m, rest'⟩ := p
      by_cases hc : Event.cmp a m = Ordering.lt <;> simp [hc]

/-- `popMax` returns a permutation: the popped element together with the
rest is the original queue. -/
theorem popMax_perm : ∀ {q : List Event} {e : Event} {rest : List Event},
    popMax q = some (e, rest) → q.Perm (e :: rest) := by
  intro q
  induction q with
  | nil => intro e rest h; simp [popMax] at h
  | cons a t ih =>
    intro e rest h
    cases ht : popMax t with
    | none =>
      have htnil : t = [] := (popMax_eq_none_iff t).mp ht
      subst htnil
      simp [popMax] at h
      obtain ⟨he, hr⟩ := h
      subst he; subst hr; exact List.Perm.refl _
    | some p =>
      obtain ⟨m, rest'⟩ := p
      by_cases hc : Event.cmp a m = Ordering.lt
      · rw [popMax] at h
        simp only [ht, hc, if_true, if_pos] at h
        simp at h
        obtain ⟨he, hr⟩ := h
        subst he; subst hr
        exact (List.Perm.cons a (ih ht)).trans (List.Perm.swap _ a rest')
      · rw [popMax] at h
        simp only [ht, if_neg hc] at h
        simp at h
        obtain ⟨he, hr⟩ := h
        subst he; subst hr
        exact List.Perm.refl _

/-- Length bookkeeping for `popMax`. -/
theorem popMax_length {q : List Event} {e : Event} {rest : List Event}
    (h : popMax q = some (e, rest)) : rest.length + 1 = q.length := by
  have := (popMax_perm h).length_eq
  simpa using this.symm

/-- Every site event in the queue indexes an existing site (true of every
builder the live code constructs, since only `new` enqueues site events). -/
def SitesOK (b : DiagramBuilder) : Prop :=
  ∀ y sid, Event.Site y sid ∈ b.event_queue → sid.val < b.sites.length

/-- A `step` returning `false` pops exactly one event and, the two handlers
being no-ops, changes nothing else: the site list is untouched, the queue
shrinks by one, and every remaining event was already queued. -/
theorem step_false_inv {b b' : DiagramBuilder} (h : b.step = some (false, b')) :
    b'.sites = b.sites ∧ b'.event_queue.length < b.event_queue.length ∧
      ∀ e, e ∈ b'.event_queue → e ∈ b.event_queue := by
  cases hpop : popMax b.event_queue with
  | none => simp [DiagramBuilder.step, hpop] at h
  | some p =>
    obtain ⟨e, rest⟩ := p
    have hperm := popMax_perm hpop
    have hlen : rest.length < b.event_queue.length := by
      have := popMax_length hpop; omega
    have hmem : ∀ x, x ∈ rest → x ∈ b.event_queue := by
      intro x hx
      exact hperm.mem_iff.mpr (List.mem_cons_of_mem _ hx)
    cases e with
    | Site y sid =>
      cases hidx : b.sites[sid.val]? with
      | none => simp [DiagramBuilder.step, hpop, hidx] at h
      | some site =>
        simp [DiagramBuilder.step, hpop, hidx, DiagramBuilder.handle_site_event] at h
        subst h
        exact ⟨rfl, hlen, hmem⟩
    | Circle y cid =>
      cases hrem : mapRemove b.circles cid with
      | mk removed circles' =>
        cases removed with
        | none =>
          simp [DiagramBuilder.step, hpop, hrem, DiagramBuilder.handle_circle_event] at h
          subst h
          exact ⟨rfl, hlen, hmem⟩
        | some circle =>
          simp [DiagramBuilder.step, hpop, hrem, DiagramBuilder.handle_circle_event] at h
          subst h
          exact ⟨rfl, hlen, hmem⟩

/-- A false `step` preserves the site-index invariant. -/
theorem step_false_sitesOK {b b' : DiagramBuilder} (hOK : SitesOK b)
    (h : b.step = some (false, b')) : SitesOK b' := by
  obtain ⟨hsites, -, hmem⟩ := step_false_inv h
  intro y sid hin
  rw [hsites]
  exact hOK y sid (hmem _ hin)

/-- On a builder satisfying the invariant, `step` never hits the aborting
out-of-range lookup. -/
theorem step_isSome_of_sitesOK {b : DiagramBuilder} (hOK : SitesOK b) :
    ∃ r b', b.step = some (r, b') := by
  have hs : b.step.isSome = true := by
    cases hpop : popMax b.event_queue with
    | none => simp [DiagramBuilder.step, hpop]
    | some p =>
      obtain ⟨e, rest⟩ := p
      cases e with
      | Site y sid =>
        have hin : Event.Site y sid ∈ b.event_queue :=
          (popMax_perm hpop).mem_iff.mpr (List.mem_cons_self _ _)
        have hlt : sid.val < b.sites.length := hOK y sid hin
        obtain ⟨site, hsite⟩ : ∃ site, b.sites[sid.val]? = some site := by
          rw [List.getElem?_eq_getElem hlt]
          exact ⟨_, rfl⟩
        simp [DiagramBuilder.step, hpop, hsite]
      | Circle y cid =>
        cases hrem : mapRemove b.circles cid with
        | mk removed circles' =>
          cases removed with
          | none => simp [DiagramBuilder.step, hpop, hrem]
          | some circle => simp [DiagramBuilder.step, hpop, hrem]
  obtain ⟨p, hp⟩ := Option.isSome_iff_exists.mp hs
  exact ⟨p.1, p.2, by rw [hp]⟩

/-- `step` on an empty queue: returns `true`, bumping only the counter. -/
theorem step_of_empty {b : DiagramBuilder} (h : b.event_queue = []) :
    b.step = some (true, { b with step_count := (b.step_count + 1) % 2 ^ 32 }) := by
  simp [DiagramBuilder.step, h, popMax]

/-- `step` reports `true` exactly when the event queue is empty. -/
theorem step_true_iff (b : DiagramBuilder) :
    (∃ b', b.step = some (true, b')) ↔ b.event_queue = [] := by
  constructor
  · rintro ⟨b', h⟩
    cases hpop : popMax b.event_queue with
    | none => exact (popMax_eq_none_iff _).mp hpop
    | some p =>
      obtain ⟨e, rest⟩ := p
      exfalso
      cases e with
      | Site y sid =>
        cases hidx : b.sites[sid.val]? with
        | none => simp [DiagramBuilder.step, hpop, hidx] at h
        | some site => simp [DiagramBuilder.step, hpop, hidx] at h
      | Circle y cid =>
        cases hrem : mapRemove b.circles cid with
        | mk removed circles' =>
          cases removed with
          | none => simp [DiagramBuilder.step, hpop, hrem] at h
          | some circle => simp [DiagramBuilder.step, hpop, hrem] at h
  · intro h
    exact ⟨_, step_of_empty h⟩

/-- The loop of `DiagramBuilder::finish`: `while !self.step() {}`.  `none`
where the Rust loop would abort in a `step`. -/
def DiagramBuilder.runSteps (b : DiagramBuilder) : Option DiagramBuilder :=
  match h : b.step with
  | none => none
  | some (true, b') => some b'
  | some (false, b') => DiagramBuilder.runSteps b'
termination_by b.event_queue.length
decreasing_by exact (step_false_inv h).2.1

/-- `DiagramBuilder::finish`: runs the loop, then returns
`Diagram::default()` — the output mesh is never touched. -/
def DiagramBuilder.finish (b : DiagramBuilder) : Option Diagram :=
  match b.runSteps with
  | none => none
  | some _ => some Diagram.default

/-- Unfolding `runSteps` when the step reports the queue empty. -/
theorem runSteps_of_step_true {b b' : DiagramBuilder} (h : b.step = some (true, b')) :
    b.runSteps = some b' := by
  rw [DiagramBuilder.runSteps]
  split <;> simp_all

/-- Unfolding `runSteps` when the step consumed an event. -/
theorem runSteps_of_step_false {b b' : DiagramBuilder} (h : b.step = some (false, b')) :
    b.runSteps = b'.runSteps := by
  rw [DiagramBuilder.runSteps]
  split <;> simp_all

/-- The loop terminates on any builder satisfying the invariant, with an
empty queue; one event is consumed per iteration. -/
theorem runSteps_terminates :
    ∀ (n : ℕ) (b : DiagramBuilder), b.event_queue.length ≤ n → SitesOK b →
      ∃ b', b.runSteps = some b' ∧ b'.event_queue = [] := by
  intro n
  induction n with
  | zero =>
    intro b hlen _
    have hq : b.event_queue = [] := by
      cases hq : b.event_queue with
      | nil => rfl
      | cons e rest => rw [hq] at hlen; simp at hlen
    exact ⟨_, runSteps_of_step_true (step_of_empty hq), hq⟩
  | succ n ih =>
    intro b hlen hOK
    obtain ⟨r, b', hstep⟩ := step_isSome_of_sitesOK hOK
    cases r with
    | true =>
      have hq : b.event_queue = [] := (step_true_iff b).mp ⟨b', hstep⟩
      exact ⟨_, runSteps_of_step_true (step_of_empty hq), hq⟩
    | false =>
      obtain ⟨-, hlt, -⟩ := step_false_inv hstep
      obtain ⟨b'', hb'', hq''⟩ := ih b' (by omega) (step_false_sitesOK hOK hstep)
      rw [runSteps_of_step_false hstep]
      exact ⟨b'', hb'', hq''⟩

/-- Every event `new` seeds is a site event whose index is in
`[i, i + length)`. -/
theorem seedEvents_shape (rect : Rect) :
    ∀ (sites : List Site) (i : ℕ) (e : Event), e ∈ seedEvents rect sites i →
      ∃ y sid, e = Event.Site y sid ∧ i ≤ sid.val ∧ sid.val < i + sites.length := by
  intro sites
  induction sites with
  | nil => intro i e he; simp [seedEvents] at he
  | cons s rest ih =>
    intro i e he
    rw [seedEvents] at he
    by_cases hc : rect.contains_point s.position
    · rw [if_pos hc] at he
      rcases List.mem_cons.mp he with h | h
      · exact ⟨s.position.2, ⟨i⟩, h, le_refl i, by simp⟩
      · obtain ⟨y, sid, he', hlo, hhi⟩ := ih (i + 1) e h
        exact ⟨y, sid, he', by omega, by simp at hhi ⊢; omega⟩
    · rw [if_neg hc] at he
      obtain ⟨y, sid, he', hlo, hhi⟩ := ih (i + 1) e he
      exact ⟨y, sid, he', by omega, by simp at hhi ⊢; omega⟩

/-- A freshly constructed builder satisfies the site-index invariant. -/
theorem new_sitesOK (rect : Rect) (sites : List Site) :
    SitesOK (DiagramBuilder.new rect sites) := by
  intro y sid hin
  obtain ⟨y', sid', heq, -, hhi⟩ := seedEvents_shape rect sites 0 _ hin
  cases heq
  simpa using hhi

/-- `finish` on any freshly constructed builder returns the default
(empty) diagram — shared by several claims below. -/
theorem finish_new (rect : Rect) (sites : List Site) :
    (DiagramBuilder.new rect sites).finish = some Diagram.default := by
  obtain ⟨b', hb', -⟩ :=
    runSteps_terminates (DiagramBuilder.new rect sites).event_queue.length
      (DiagramBuilder.new rect sites) (le_refl _) (new_sitesOK rect sites)
  simp [DiagramBuilder.finish, hb']

/-- `seedEvents` seeds one event per site passing the containment test. -/
theorem seedEvents_length (rect : Rect) :
    ∀ (sites : List Site) (i : ℕ),
      (seedEvents rect sites i).length
        = (sites.filter (fun s => rect.contains_point s.position)).length := by
  intro sites
  induction sites with
  | nil => intro i; simp [seedEvents]
  | cons s rest ih =>
    intro i
    rw [seedEvents]
    by_cases hc : rect.contains_point s.position
    · rw [if_pos hc]
      simp [List.filter_cons, hc, ih (i + 1)]
    · rw [if_neg hc]
      simp [List.filter_cons, hc, ih (i + 1)]

/-- Multiplicity of a given site's event among the seeded events: one when
the site passes the containment test, zero when it does not. -/
theorem seedEvents_count (rect : Rect) :
    ∀ (sites : List Site) (i j : ℕ) (s : Site), sites[j]? = some s →
      (seedEvents rect sites i).count (Event.Site s.position.2 ⟨i + j⟩)
        = if rect.contains_point s.position then 1 else 0 := by
  intro sites
  induction sites with
  | nil => intro i j s h; simp at h
  | cons s0 rest ih =>
    intro i j s h
    have hnotmem : ∀ (k : ℕ), k < i + 1 →
        Event.Site s.position.2 ⟨k⟩ ∉ seedEvents rect rest (i + 1) := by
      intro k hk hmem
      obtain ⟨y', sid', heq, hlo, -⟩ := seedEvents_shape rect rest (i + 1) _ hmem
      cases heq
      simp at hlo
      omega
    cases j with
    | zero =>
      have hs : s0 = s := by simpa using h
      subst hs
      rw [seedEvents]
      simp only [Nat.add_zero]
      by_cases hc : rect.contains_point s0.position
      · rw [if_pos hc, if_pos hc]
        have hz : (seedEvents rect rest (i + 1)).count (Event.Site s0.position.2 ⟨i⟩) = 0 :=
          List.count_eq_zero.mpr (hnotmem i (by omega))
        simp [List.count_cons, hz]
      · rw [if_neg hc, if_neg hc]
        exact List.count_eq_zero.mpr (hnotmem i (by omega))
    | succ j' =>
      have h' : rest[j']? = some s := by simpa using h
      have hih := ih (i + 1) j' s h'
      have hidx : i + 1 + j' = i + (j' + 1) := by omega
      rw [hidx] at hih
      rw [seedEvents]
      by_cases hc : rect.contains_point s0.position
      · rw [if_pos hc]
        have hne : (Event.Site s0.position.2 ⟨i⟩ == Event.Site s.position.2 ⟨i + (j' + 1)⟩) = false := by
          simp only [beq_eq_false_iff_ne, ne_eq, Event.Site.injEq, not_and]
          intro _ hcontra
          have : i = i + (j' + 1) := congrArg SiteId.val hcontra
          omega
        rw [List.count_cons]
        simp only [hne, if_false]
        simpa using hih
      · rw [if_neg hc]
        exact hih

/-- The seeded queue contains no circle events. -/
theorem seedEvents_no_circle (rect : Rect) (sites : List Site) (i : ℕ)
    (y : ℚ) (cid : CircleId) : Event.Circle y cid ∉ seedEvents rect sites i := by
  intro hmem
  obtain ⟨y', sid', heq, -, -⟩ := seedEvents_shape rect sites i _ hmem
  cases heq

/-! ## `src/build.rs`: the geometric kernel, over `ℝ` -/

/-- `cgmath`'s `MetricSpace::distance` on `Point2`: the Euclidean distance. -/
noncomputable def distance (p q : ℝ × ℝ) : ℝ :=
  Real.sqrt ((p.1 - q.1) * (p.1 - q.1) + (p.2 - q.2) * (p.2 - q.2))

/-- `circumcircle_of_points` of build.rs: `none` when the determinant `d`
vanishes, otherwise the circumcenter by the standard determinant formula and
the radius as the distance from `a` to that center. -/
noncomputable def circumcircle_of_points (a b c : ℝ × ℝ) : Option ((ℝ × ℝ) × ℝ) :=
  let d := 2 * (a.1 * (b.2 - c.2) + b.1 * (c.2 - a.2) + c.1 * (a.2 - b.2))
  if d = 0 then none
  else
    let axy2 := a.1 * a.1 + a.2 * a.2
    let bxy2 := b.1 * b.1 + b.2 * b.2
    let cxy2 := c.1 * c.1 + c.2 * c.2
    let x := axy2 * (b.2 - c.2) + bxy2 * (c.2 - a.2) + cxy2 * (a.2 - b.2)
    let y := axy2 * (c.1 - b.1) + bxy2 * (a.1 - c.1) + cxy2 * (b.1 - a.1)
    let centroid := (x / d, y / d)
    some (centroid, distance a centroid)

/-- The parabola equation the source plugs the breakpoint back into
(`intersection`'s final `y` computation): the locus of points equidistant
from the focus `p` and the horizontal directrix. -/
noncomputable def parabolaY (p : ℝ × ℝ) (directrix x : ℝ) : ℝ :=
  (p.2 * p.2 + (p.1 - x) * (p.1 - x) - directrix * directrix) / (2 * p.2 - 2 * directrix)

/-- The coefficient `a` of the quadratic solved by `intersection`'s general
branch (`z_left`/`z_right` folded in). -/
noncomputable def quadA (lf rf : ℝ × ℝ) (directrix : ℝ) : ℝ :=
  1 / (2 * (lf.2 - directrix)) - 1 / (2 * (rf.2 - directrix))

/-- The coefficient `b` of the quadratic solved by `intersection`'s general
branch. -/
noncomputable def quadB (lf rf : ℝ × ℝ) (directrix : ℝ) : ℝ :=
  -2 * (lf.1 / (2 * (lf.2 - directrix)) - rf.1 / (2 * (rf.2 - directrix)))

/-- The coefficient `c` of the quadratic solved by `intersection`'s general
branch. -/
noncomputable def quadC (lf rf : ℝ × ℝ) (directrix : ℝ) : ℝ :=
  (lf.1 * lf.1 + lf.2 * lf.2 - directrix * directrix) / (2 * (lf.2 - directrix))
    - (rf.1 * rf.1 + rf.2 * rf.2 - directrix * directrix) / (2 * (rf.2 - directrix))

/-- `intersection` of build.rs: the breakpoint of the parabolas with foci
`left_focus` and `right_focus` and the given directrix.  Branches exactly as
the source: equal-height foci, right focus on the directrix, left focus on
the directrix, then the quadratic formula (with the source's `abs` inside
the square root), plugging the chosen `x` back into the parabola equation of
`p` (the left focus, switched to the right one in the third branch). -/
noncomputable def intersection (left_focus right_focus : ℝ × ℝ) (directrix : ℝ) : ℝ × ℝ :=
  if left_focus.2 = right_focus.2 then
    let x := (left_focus.1 + right_focus.1) / 2
    (x, parabolaY left_focus directrix x)
  else if right_focus.2 = directrix then
    (right_focus.1, parabolaY left_focus directrix right_focus.1)
  else if left_focus.2 = directrix then
    (left_focus.1, parabolaY right_focus directrix left_focus.1)
  else
    let a := quadA left_focus right_focus directrix
    let b := quadB left_focus right_focus directrix
    let c := quadC left_focus right_focus directrix
    let x := (-b - Real.sqrt |b * b - 4 * a * c|) / (2 * a)
    (x, parabolaY left_focus directrix x)

/-- The determinant computed by `circumcircle_of_points` vanishes exactly on
collinear triples. -/
theorem det_eq_zero_iff_collinear (a b c : ℝ × ℝ) :
    2 * (a.1 * (b.2 - c.2) + b.1 * (c.2 - a.2) + c.1 * (a.2 - b.2)) = 0 ↔
      Collinear ℝ ({a, b, c} : Set (ℝ × ℝ)) := by
  rw [collinear_iff_of_mem (Set.mem_insert a {b, c})]
  constructor
  · intro hd
    by_cases hba : b = a
    · subst hba
      refine ⟨c - b, ?_⟩
      intro p hp
      simp only [Set.mem_insert_iff, Set.mem_singleton_iff] at hp
      rcases hp with rfl | rfl | rfl
      · exact ⟨0, by simp⟩
      · exact ⟨0, by simp⟩
      · exact ⟨1, by simp⟩
    · have hcross : (b.1 - a.1) * (c.2 - a.2) - (c.1 - a.1) * (b.2 - a.2) = 0 := by
        linear_combination hd / 2
      refine ⟨b - a, ?_⟩
      intro p hp
      simp only [Set.mem_insert_iff, Set.mem_singleton_iff] at hp
      have hcomp : b.1 ≠ a.1 ∨ b.2 ≠ a.2 := by
        by_contra hcon
        push_neg at hcon
        exact hba (Prod.ext hcon.1 hcon.2)
      rcases hp with rfl | rfl | rfl
      · exact ⟨0, by simp⟩
      · exact ⟨1, by simp⟩
      · rcases hcomp with hne | hne
        · refine ⟨(p.1 - a.1) / (b.1 - a.1), ?_⟩
          have hba1 : b.1 - a.1 ≠ 0 := sub_ne_zero.mpr hne
          have h1 : (p.1 - a.1) / (b.1 - a.1) * (b.1 - a.1) + a.1 = p.1 := by
            field_simp
          have h2 : (p.1 - a.1) / (b.1 - a.1) * (b.2 - a.2) + a.2 = p.2 := by
            field_simp
            linear_combination -hcross
          have : ((p.1 - a.1) / (b.1 - a.1)) • (b - a) +ᵥ a
              = ((p.1 - a.1) / (b.1 - a.1) * (b.1 - a.1) + a.1,
                 (p.1 - a.1) / (b.1 - a.1) * (b.2 - a.2) + a.2) := by
            simp [Prod.ext_iff]
          rw [this, h1, h2]
        · refine ⟨(p.2 - a.2) / (b.2 - a.2), ?_⟩
          have hba2 : b.2 - a.2 ≠ 0 := sub_ne_zero.mpr hne
          have h1 : (p.2 - a.2) / (b.2 - a.2) * (b.1 - a.1) + a.1 = p.1 := by
            field_simp
            linear_combination hcross
          have h2 : (p.2 - a.2) / (b.2 - a.2) * (b.2 - a.2) + a.2 = p.2 := by
            field_simp
          have : ((p.2 - a.2) / (b.2 - a.2)) • (b - a) +ᵥ a
              = ((p.2 - a.2) / (b.2 - a.2) * (b.1 - a.1) + a.1,
                 (p.2 - a.2) / (b.2 - a.2) * (b.2 - a.2) + a.2) := by
            simp [Prod.ext_iff]
          rw [this, h1, h2]
  · rintro ⟨v, hv⟩
    obtain ⟨rb, hrb⟩ := hv b (by simp)
    obtain ⟨rc, hrc⟩ := hv c (by simp)
    have hb1 : b.1 = rb * v.1 + a.1 := by rw [hrb]; simp
    have hb2 : b.2 = rb * v.2 + a.2 := by rw [hrb]; simp
    have hc1 : c.1 = rc * v.1 + a.1 := by rw [hrc]; simp
    have hc2 : c.2 = rc * v.2 + a.2 := by rw [hrc]; simp
    rw [hb1, hb2, hc1, hc2]
    ring

/-- Equating the two parabola equations gives exactly the quadratic whose
coefficients the general branch of `intersection` computes. -/
theorem parabola_diff_eq_quad (lf rf : ℝ × ℝ) (d : ℝ)
    (h2 : rf.2 ≠ d) (h3 : lf.2 ≠ d) (x : ℝ) :
    parabolaY lf d x - parabolaY rf d x
      = quadA lf rf d * (x * x) + quadB lf rf d * x + quadC lf rf d := by
  have hzl : lf.2 - d ≠ 0 := sub_ne_zero.mpr h3
  have hzr : rf.2 - d ≠ 0 := sub_ne_zero.mpr h2
  have hzl2 : 2 * lf.2 - 2 * d ≠ 0 := by
    intro hcon; apply hzl; linarith
  have hzr2 : 2 * rf.2 - 2 * d ≠ 0 := by
    intro hcon; apply hzr; linarith
  unfold parabolaY quadA quadB quadC
  field_simp
  ring

/-- The general branch's leading coefficient is nonzero whenever the foci
heights differ and neither focus sits on the directrix. -/
theorem quadA_ne_zero (lf rf : ℝ × ℝ) (d : ℝ)
    (h1 : lf.2 ≠ rf.2) (h2 : rf.2 ≠ d) (h3 : lf.2 ≠ d) : quadA lf rf d ≠ 0 := by
  have hzl : lf.2 - d ≠ 0 := sub_ne_zero.mpr h3
  have hzr : rf.2 - d ≠ 0 := sub_ne_zero.mpr h2
  unfold quadA
  intro h0
  apply h1
  field_simp at h0
  linarith

/-- Evaluating the quadratic at the minus-branch quadratic-formula root. -/
theorem quad_root_eval (A B C s : ℝ) (hA : A ≠ 0) (hs : s * s = B * B - 4 * A * C) :
    A * ((-B - s) / (2 * A) * ((-B - s) / (2 * A))) + B * ((-B - s) / (2 * A)) + C = 0 := by
  field_simp
  linear_combination 2 * A ^ 2 * hs

/-! ## Claim theorems -/

/-- C5: `circumcircle_of_points a b c` returns `none` exactly when the three
points are collinear (equivalently, when the determinant of the circumcircle
linear system is zero); otherwise it returns the circumcenter — the point
equidistant from all three inputs — together with the radius, the distance
from `a` to that center. -/
theorem circumcircle_spec (a b c : ℝ × ℝ) :
    (circumcircle_of_points a b c = none ↔ Collinear ℝ ({a, b, c} : Set (ℝ × ℝ)))
    ∧ (∀ (center : ℝ × ℝ) (radius : ℝ),
        circumcircle_of_points a b c = some (center, radius) →
          radius = distance a center ∧ distance b center = radius
            ∧ distance c center = radius) := by
  constructor
  · rw [← det_eq_zero_iff_collinear]
    simp only [circumcircle_of_points]
    by_cases hd : 2 * (a.1 * (b.2 - c.2) + b.1 * (c.2 - a.2) + c.1 * (a.2 - b.2)) = 0
    · simp [hd]
    · simp [hd]
  · intro center radius h
    simp only [circumcircle_of_points] at h
    by_cases hd : 2 * (a.1 * (b.2 - c.2) + b.1 * (c.2 - a.2) + c.1 * (a.2 - b.2)) = 0
    · simp [hd] at h
    · rw [if_neg hd] at h
      simp only [Option.some.injEq, Prod.mk.injEq] at h
      obtain ⟨hcenter, hradius⟩ := h
      subst hcenter
      subst hradius
      refine ⟨rfl, ?_, ?_⟩
      · unfold distance
        congr 1
        field_simp
        ring
      · unfold distance
        congr 1
        field_simp
        ring

/-- C5 witness: the triple `(0,0)`, `(6,0)`, `(0,8)` is not collinear, its
circumcircle has center `(3,4)` and radius `5`, and the other two points
are at distance `5` from the center as well. -/
theorem circumcircle_spec_witness :
    circumcircle_of_points ((0 : ℝ), (0 : ℝ)) (6, 0) (0, 8) = some ((3, 4), 5)
      ∧ distance (6, 0) (3, 4) = 5 ∧ distance (0, 8) (3, 4) = 5 := by
  have h5 : distance ((0 : ℝ), (0 : ℝ)) ((3 : ℝ), (4 : ℝ)) = 5 := by
    unfold distance
    rw [show ((0 : ℝ) - 3) * ((0 : ℝ) - 3) + ((0 : ℝ) - 4) * ((0 : ℝ) - 4) = 5 ^ 2 by norm_num]
    exact Real.sqrt_sq (by norm_num)
  have h : circumcircle_of_points ((0 : ℝ), (0 : ℝ)) (6, 0) (0, 8) = some ((3, 4), 5) := by
    simp only [circumcircle_of_points]
    rw [if_neg (by norm_num)]
    norm_num
    simpa using h5
  have heq := (circumcircle_spec ((0 : ℝ), (0 : ℝ)) (6, 0) (0, 8)).2 (3, 4) 5 h
  exact ⟨h, heq.2.1, heq.2.2⟩

/-- C6: the breakpoint computed by `intersection`.  Equal-height foci give
the midpoint of the two x-coordinates; a focus exactly on the directrix
gives that focus's x-coordinate; otherwise the returned x is the
minus-branch quadratic-formula root of the quadratic obtained by equating
the two parabola equations (whose coefficients are `quadA`, `quadB`,
`quadC`), it satisfies that quadratic whenever the discriminant is
nonnegative, and it is the root consistent with the left focus's arc lying
to the left: just left of the breakpoint the left focus's parabola is the
higher (beachline) one, just right of it the right focus's parabola is. -/
theorem intersection_spec (lf rf : ℝ × ℝ) (d : ℝ) :
    (lf.2 = rf.2 → (intersection lf rf d).1 = (lf.1 + rf.1) / 2)
    ∧ (lf.2 ≠ rf.2 → rf.2 = d → (intersection lf rf d).1 = rf.1)
    ∧ (lf.2 ≠ rf.2 → rf.2 ≠ d → lf.2 = d → (intersection lf rf d).1 = lf.1)
    ∧ (lf.2 ≠ rf.2 → rf.2 ≠ d → lf.2 ≠ d →
        (∀ x : ℝ, parabolaY lf d x - parabolaY rf d x
            = quadA lf rf d * (x * x) + quadB lf rf d * x + quadC lf rf d)
        ∧ (intersection lf rf d).1
            = (-(quadB lf rf d)
                - Real.sqrt |quadB lf rf d * quadB lf rf d - 4 * quadA lf rf d * quadC lf rf d|)
              / (2 * quadA lf rf d)
        ∧ (0 ≤ quadB lf rf d * quadB lf rf d - 4 * quadA lf rf d * quadC lf rf d →
            quadA lf rf d * ((intersection lf rf d).1 * (intersection lf rf d).1)
              + quadB lf rf d * (intersection lf rf d).1 + quadC lf rf d = 0)
        ∧ (0 < quadB lf rf d * quadB lf rf d - 4 * quadA lf rf d * quadC lf rf d →
            (∀ x : ℝ,
              (intersection lf rf d).1
                  - Real.sqrt (quadB lf rf d * quadB lf rf d - 4 * quadA lf rf d * quadC lf rf d)
                    / |quadA lf rf d| < x →
              x < (intersection lf rf d).1 →
              parabolaY rf d x < parabolaY lf d x)
            ∧ (∀ x : ℝ,
              (intersection lf rf d).1 < x →
              x < (intersection lf rf d).1
                  + Real.sqrt (quadB lf rf d * quadB lf rf d - 4 * quadA lf rf d * quadC lf rf d)
                    / |quadA lf rf d| →
              parabolaY lf d x < parabolaY rf d x))) := by
  refine ⟨?_, ?_, ?_, ?_⟩
  · intro h1
    unfold intersection
    rw [if_pos h1]
  · intro h1 h2
    unfold intersection
    rw [if_neg h1, if_pos h2]
  · intro h1 h2 h3
    unfold intersection
    rw [if_neg h1, if_neg h2, if_pos h3]
  · intro h1 h2 h3
    have hx : (intersection lf rf d).1
        = (-(quadB lf rf d)
            - Real.sqrt |quadB lf rf d * quadB lf rf d - 4 * quadA lf rf d * quadC lf rf d|)
          / (2 * quadA lf rf d) := by
      unfold intersection
      rw [if_neg h1, if_neg h2, if_neg h3]
    have hA : quadA lf rf d ≠ 0 := quadA_ne_zero lf rf d h1 h2 h3
    refine ⟨parabola_diff_eq_quad lf rf d h2 h3, hx, ?_, ?_⟩
    · intro hdisc
      have habs : |quadB lf rf d * quadB lf rf d - 4 * quadA lf rf d * quadC lf rf d|
          = quadB lf rf d * quadB lf rf d - 4 * quadA lf rf d * quadC lf rf d :=
        abs_of_nonneg hdisc
      have hs : Real.sqrt (quadB lf rf d * quadB lf rf d - 4 * quadA lf rf d * quadC lf rf d)
            * Real.sqrt (quadB lf rf d * quadB lf rf d - 4 * quadA lf rf d * quadC lf rf d)
          = quadB lf rf d * quadB lf rf d - 4 * quadA lf rf d * quadC lf rf d :=
        Real.mul_self_sqrt hdisc
      rw [hx, habs]
      exact quad_root_eval _ _ _ _ hA hs
    · intro hdisc
      have habs : |quadB lf rf d * quadB lf rf d - 4 * quadA lf rf d * quadC lf rf d|
          = quadB lf rf d * quadB lf rf d - 4 * quadA lf rf d * quadC lf rf d :=
        abs_of_nonneg hdisc.le
      set A := quadA lf rf d with hAdef
      set B := quadB lf rf d with hBdef
      set C := quadC lf rf d with hCdef
      set s := Real.sqrt (B * B - 4 * A * C) with hsdef
      have hspos : 0 < s := Real.sqrt_pos.mpr hdisc
      have hss : s * s = B * B - 4 * A * C := Real.mul_self_sqrt hdisc.le
      set t := (intersection lf rf d).1 with htdef
      have hxval : t = (-B - s) / (2 * A) := by rw [hx, habs]
      have h2At : 2 * A * t = -B - s := by
        rw [hxval]; field_simp
      have hroot : A * (t * t) + B * t + C = 0 := by
        rw [hxval]; exact quad_root_eval _ _ _ _ hA hss
      have habsA : 0 < |A| := abs_pos.mpr hA
      -- the quadratic factors through its root t
      have hfac : ∀ x : ℝ, A * (x * x) + B * x + C = (x - t) * (A * x + A * t + B) := by
        intro x
        have : A * (x * x) + B * x + C
            = (x - t) * (A * x + A * t + B) + (A * (t * t) + B * t + C) := by ring
        rw [this, hroot, add_zero]
      -- the linear factor is negative throughout the window around t
      have hlin : ∀ x : ℝ, |x - t| < s / |A| → A * x + A * t + B < 0 := by
        intro x hwin
        have h2 : A * x + A * t + B = A * (x - t) + (2 * A * t + B) := by ring
        have h3 : 2 * A * t + B = -s := by rw [h2At]; ring
        have h4 : A * (x - t) ≤ |A * (x - t)| := le_abs_self _
        have h5 : |A * (x - t)| = |A| * |x - t| := abs_mul A (x - t)
        have h6 : |A| * |x - t| < |A| * (s / |A|) :=
          mul_lt_mul_of_pos_left hwin habsA
        have h7 : |A| * (s / |A|) = s := by field_simp
        rw [h2, h3]
        have : A * (x - t) < s := by
          calc A * (x - t) ≤ |A * (x - t)| := h4
            _ = |A| * |x - t| := h5
            _ < |A| * (s / |A|) := h6
            _ = s := h7
        linarith
      constructor
      · intro x hlo hhi
        have hwin : |x - t| < s / |A| := by
          rw [abs_of_neg (by linarith : x - t < 0)]
          linarith
        have hneg1 : x - t < 0 := by linarith
        have hneg2 : A * x + A * t + B < 0 := hlin x hwin
        have hqpos : 0 < A * (x * x) + B * x + C := by
          rw [hfac x]
          exact mul_pos_of_neg_of_neg hneg1 hneg2
        have hdiff := parabola_diff_eq_quad lf rf d h2 h3 x
        rw [← hAdef, ← hBdef, ← hCdef] at hdiff
        linarith [hdiff, hqpos]
      · intro x hlo hhi
        have hwin : |x - t| < s / |A| := by
          rw [abs_of_pos (by linarith : 0 < x - t)]
          linarith
        have hpos1 : 0 < x - t := by linarith
        have hneg2 : A * x + A * t + B < 0 := hlin x hwin
        have hqneg : A * (x * x) + B * x + C < 0 := by
          rw [hfac x]
          exact mul_neg_of_pos_of_neg hpos1 hneg2
        have hdiff := parabola_diff_eq_quad lf rf d h2 h3 x
        rw [← hAdef, ← hBdef, ← hCdef] at hdiff
        linarith [hdiff, hqneg]

/-- C6 witness: with the right focus exactly on the directrix (and the foci
at distinct heights) the breakpoint is the right focus's x-coordinate. -/
theorem intersection_spec_witness :
    ((5 : ℝ), (1 : ℝ)).2 ≠ ((7 : ℝ), (2 : ℝ)).2
      ∧ (intersection ((5 : ℝ), (1 : ℝ)) ((7 : ℝ), (2 : ℝ)) 2).1 = 7 :=
  ⟨by norm_num, (intersection_spec ((5 : ℝ), (1 : ℝ)) ((7 : ℝ), (2 : ℝ)) 2).2.1 (by norm_num) rfl⟩

/-- C1: the code, run on three distinct, non-collinear sites strictly inside
the bounding rectangle, returns the default diagram with zero faces rather
than one face per site: `finish` never populates the mesh (the event
handlers are commented out), so the face count is 0, not 3. -/
theorem three_sites_zero_faces :
    (DiagramBuilder.new ⟨(0, 0), (1, 1)⟩
        [⟨(1/5, 1/5)⟩, ⟨(4/5, 1/5)⟩, ⟨(1/2, 4/5)⟩]).finish = some Diagram.default
    ∧ Diagram.default.faces.length = 0
    ∧ ([⟨(1/5, 1/5)⟩, ⟨(4/5, 1/5)⟩, ⟨(1/2, 4/5)⟩] : List Site).length = 3
    ∧ (∀ s ∈ ([⟨(1/5, 1/5)⟩, ⟨(4/5, 1/5)⟩, ⟨(1/2, 4/5)⟩] : List Site),
        Rect.contains_point ⟨(0, 0), (1, 1)⟩ s.position = true)
    ∧ ([⟨(1/5, 1/5)⟩, ⟨(4/5, 1/5)⟩, ⟨(1/2, 4/5)⟩] : List Site).Pairwise (· ≠ ·)
    ∧ 2 * ((1/5 : ℚ) * (1/5 - 4/5) + 4/5 * (4/5 - 1/5) + 1/2 * (1/5 - 1/5)) ≠ 0 := by
  refine ⟨finish_new _ _, rfl, rfl, ?_, ?_, by norm_num⟩
  · intro s hs
    fin_cases hs <;>
      · simp only [Rect.contains_point, Rect.left, Rect.top, Rect.right, Rect.bottom,
          Bool.and_eq_true, decide_eq_true_eq, gt_iff_lt]
        norm_num
  · norm_num [List.pairwise_cons, Site.mk.injEq, Prod.mk.injEq]

/-- C2: for every bounding rectangle and site list, `finish` returns the
default diagram with empty `vertices`, `halfedges` and `faces`, because the
site- and circle-event handlers leave the builder unchanged and `finish`
returns `Diagram::default()`. -/
theorem finish_always_default (rect : Rect) (sites : List Site) :
    (DiagramBuilder.new rect sites).finish = some Diagram.default
    ∧ Diagram.default.vertices = [] ∧ Diagram.default.halfedges = []
    ∧ Diagram.default.faces = []
    ∧ (∀ (b : DiagramBuilder) (s : Site), b.handle_site_event s = b)
    ∧ (∀ (b : DiagramBuilder) (c : Circle), b.handle_circle_event c = b) :=
  ⟨finish_new rect sites, rfl, rfl, rfl, fun _ _ => rfl, fun _ _ => rfl⟩

/-- C3 counterexample: for a bounding rectangle of width 0, construction
does not fail — `new` performs no validation, the queue is seeded empty,
and `finish` returns a `Diagram` (the default one) to the caller. -/
theorem nonpositive_rect_cex :
    (DiagramBuilder.new ⟨(0, 0), (0, 5)⟩ [⟨(0, 1)⟩]).finish = some Diagram.default
    ∧ (DiagramBuilder.new ⟨(0, 0), (0, 5)⟩ [⟨(0, 1)⟩]).event_queue = [] :=
  ⟨finish_new _ _, by decide⟩

/-- With a non-positive width or height no point passes `contains_point`. -/
theorem contains_point_false_of_nonpos (r : Rect)
    (h : r.size.1 ≤ 0 ∨ r.size.2 ≤ 0) (p : ℚ × ℚ) :
    r.contains_point p = false := by
  by_contra hcon
  rw [Bool.not_eq_false] at hcon
  unfold Rect.contains_point at hcon
  simp only [Bool.and_eq_true, decide_eq_true_eq, gt_iff_lt, Rect.left, Rect.top,
    Rect.right, Rect.bottom] at hcon
  obtain ⟨⟨⟨h1, h2⟩, h3⟩, h4⟩ := hcon
  rcases h with h | h
  · linarith
  · linarith

/-- If no point passes the containment test, no events are seeded. -/
theorem seedEvents_nil_of_all_false (rect : Rect)
    (h : ∀ p, rect.contains_point p = false) :
    ∀ (sites : List Site) (i : ℕ), seedEvents rect sites i = [] := by
  intro sites
  induction sites with
  | nil => intro i; rfl
  | cons s rest ih => intro i; rw [seedEvents, if_neg (by rw [h]; simp), ih]

/-- C3 amended: a bounding rectangle with non-positive width or height does
not make construction fail: `new` performs no validation, every site fails
the strict containment test so the event queue is empty, and `finish`
returns the default diagram. -/
theorem nonpositive_rect_no_failure (rect : Rect) (sites : List Site)
    (h : rect.size.1 ≤ 0 ∨ rect.size.2 ≤ 0) :
    (DiagramBuilder.new rect sites).event_queue = []
    ∧ (DiagramBuilder.new rect sites).finish = some Diagram.default := by
  constructor
  · show seedEvents rect sites 0 = []
    exact seedEvents_nil_of_all_false rect (contains_point_false_of_nonpos rect h) sites 0
  · exact finish_new rect sites

/-- C3 amended witness: concrete zero-width rectangle with one site. -/
theorem nonpositive_rect_no_failure_witness :
    ((⟨(0, 0), (0, 5)⟩ : Rect).size.1 ≤ 0 ∨ (⟨(0, 0), (0, 5)⟩ : Rect).size.2 ≤ 0)
    ∧ ((DiagramBuilder.new ⟨(0, 0), (0, 5)⟩ [⟨(3, 1)⟩]).event_queue = []
        ∧ (DiagramBuilder.new ⟨(0, 0), (0, 5)⟩ [⟨(3, 1)⟩]).finish = some Diagram.default) :=
  ⟨Or.inl (by decide),
    nonpositive_rect_no_failure ⟨(0, 0), (0, 5)⟩ [⟨(3, 1)⟩] (Or.inl (by decide))⟩

/-- C4: `new` seeds exactly one site event per site strictly inside the
bounding rectangle (multiplicity one for an in-bounds site, zero for a site
on or outside the boundary — and no error in either case), seeds no circle
events, and `contains_point` holds exactly on the four strict inequalities
against the rectangle's sides. -/
theorem new_seeds_one_event_per_inbounds_site (rect : Rect) (sites : List Site) :
    (DiagramBuilder.new rect sites).event_queue.length
        = (sites.filter (fun s => rect.contains_point s.position)).length
    ∧ (∀ (i : ℕ) (s : Site), sites[i]? = some s →
        (DiagramBuilder.new rect sites).event_queue.count (Event.Site s.position.2 ⟨i⟩)
          = if rect.contains_point s.position then 1 else 0)
    ∧ (∀ (y : ℚ) (cid : CircleId),
        Event.Circle y cid ∉ (DiagramBuilder.new rect sites).event_queue)
    ∧ (∀ s : Site, rect.contains_point s.position = true ↔
        (rect.left < s.position.1 ∧ rect.top < s.position.2
          ∧ s.position.1 < rect.right ∧ s.position.2 < rect.bottom)) := by
  refine ⟨seedEvents_length rect sites 0, ?_, ?_, ?_⟩
  · intro i s h
    have hc := seedEvents_count rect sites 0 i s h
    simpa using hc
  · intro y cid
    exact seedEvents_no_circle rect sites 0 y cid
  · intro s
    unfold Rect.contains_point
    simp [Bool.and_eq_true, decide_eq_true_eq, gt_iff_lt, and_assoc]

/-- C4 witness: one in-bounds site seeds exactly one event. -/
theorem new_seeds_one_event_per_inbounds_site_witness :
    (([⟨(1/2, 1/2)⟩, ⟨(2, 2)⟩] : List Site)[0]? = some ⟨(1/2, 1/2)⟩)
    ∧ (DiagramBuilder.new ⟨(0, 0), (1, 1)⟩ [⟨(1/2, 1/2)⟩, ⟨(2, 2)⟩]).event_queue.count
          (Event.Site (1/2) ⟨0⟩)
        = if Rect.contains_point ⟨(0, 0), (1, 1)⟩ (1/2, 1/2) then 1 else 0 :=
  ⟨rfl, (new_seeds_one_event_per_inbounds_site ⟨(0, 0), (1, 1)⟩
    [⟨(1/2, 1/2)⟩, ⟨(2, 2)⟩]).2.1 0 ⟨(1/2, 1/2)⟩ rfl⟩

/-- C7 counterexample: two distinct events with equal sweep coordinate
(different site indices) compare as `Equal` — the ordering has no secondary
key, so ties are not broken deterministically by site index. -/
theorem event_cmp_no_secondary_key_cex :
    Event.Site 1 ⟨0⟩ ≠ Event.Site 1 ⟨1⟩
    ∧ Event.cmp (Event.Site 1 ⟨0⟩) (Event.Site 1 ⟨1⟩) = Ordering.eq := by
  exact ⟨by decide, by decide⟩

/-- C7 amended: the event ordering compares only the (negated) sweep
coordinate: it returns `Equal` exactly on equal sweep coordinates — never
consulting the site index or circle id — and orders earlier sweep
coordinates as greater (so the max-heap pops them first). -/
theorem event_cmp_y_only (e1 e2 : Event) :
    (Event.cmp e1 e2 = Ordering.eq ↔ e1.get_y = e2.get_y)
    ∧ (Event.cmp e1 e2 = Ordering.lt ↔ e2.get_y < e1.get_y)
    ∧ (Event.cmp e1 e2 = Ordering.gt ↔ e1.get_y < e2.get_y) := by
  have key : Event.cmp e1 e2 =
      (if e2.get_y < e1.get_y then Ordering.lt
        else if e1.get_y = e2.get_y then Ordering.eq else Ordering.gt) := by
    unfold Event.cmp cmpRat
    rw [Option.getD_some]
    exact if_congr neg_lt_neg_iff rfl (if_congr neg_inj rfl rfl)
  rw [key]
  rcases lt_trichotomy e1.get_y e2.get_y with h | h | h
  · rw [if_neg (lt_asymm h), if_neg (ne_of_lt h)]
    exact ⟨by simp [ne_of_lt h], by simp [lt_asymm h], by simp [h]⟩
  · rw [if_neg (by rw [h]; exact lt_irrefl _), if_pos h]
    exact ⟨by simp [h], by simp [h], by simp [h]⟩
  · rw [if_pos h]
    exact ⟨by simp [(ne_of_lt h).symm], by simp [h], by simp [lt_asymm h]⟩

/-- C8: a circle event popped while its id is absent from the `circles`
validity map is discarded with no effect: the step only removes the event
from the queue and bumps the step counter — sites, circles, beachline and
the event counters are untouched (and `handle_circle_event` is not run). -/
theorem stale_circle_event_discarded (b : DiagramBuilder) (y : ℚ) (cid : CircleId)
    (rest : List Event)
    (hpop : popMax b.event_queue = some (Event.Circle y cid, rest))
    (habsent : (mapRemove b.circles cid).1 = none) :
    b.step = some (false,
      { b with step_count := (b.step_count + 1) % 2 ^ 32, event_queue := rest }) := by
  cases hrem : mapRemove b.circles cid with
  | mk removed circles' =>
    rw [hrem] at habsent
    simp only at habsent
    subst habsent
    simp [DiagramBuilder.step, hpop, hrem]

/-- C8 witness: a builder holding one circle event whose id is not in the
(empty) validity map: the step pops it and changes nothing else. -/
theorem stale_circle_event_discarded_witness :
    popMax (⟨[], [], [Event.Circle 1 ⟨0⟩], none, 0, 0, 0, false⟩
        : DiagramBuilder).event_queue = some (Event.Circle 1 ⟨0⟩, [])
    ∧ (mapRemove (⟨[], [], [Event.Circle 1 ⟨0⟩], none, 0, 0, 0, false⟩
        : DiagramBuilder).circles ⟨0⟩).1 = none
    ∧ (⟨[], [], [Event.Circle 1 ⟨0⟩], none, 0, 0, 0, false⟩ : DiagramBuilder).step
        = some (false, ⟨[], [], [], none, 1, 0, 0, false⟩) := by
  refine ⟨rfl, rfl, ?_⟩
  exact stale_circle_event_discarded
    ⟨[], [], [Event.Circle 1 ⟨0⟩], none, 0, 0, 0, false⟩ 1 ⟨0⟩ [] rfl rfl

/-- C9: `step` reports done (`true`) exactly when the event queue is empty;
the `finish` loop reaches an empty queue in finitely many steps for every
input (each iteration consumes one queued event), and so `finish` returns. -/
theorem step_true_iff_queue_empty_and_terminates (b : DiagramBuilder)
    (rect : Rect) (sites : List Site) :
    ((∃ b', b.step = some (true, b')) ↔ b.event_queue = [])
    ∧ (∃ b', (DiagramBuilder.new rect sites).runSteps = some b'
        ∧ b'.event_queue = [])
    ∧ (DiagramBuilder.new rect sites).finish = some Diagram.default :=
  ⟨step_true_iff b,
    runSteps_terminates (DiagramBuilder.new rect sites).event_queue.length
      (DiagramBuilder.new rect sites) (le_refl _) (new_sitesOK rect sites),
    finish_new rect sites⟩

/-- C10: the three accessors are bounds-checked lookups: in range they
return the stored element, out of range they return `none` — never an
out-of-bounds access. -/
theorem accessors_bounds_checked (d : Diagram) (i : ℕ) :
    (∀ (h : i < d.vertices.length), d.get_vertex ⟨i⟩ = some (d.vertices.get ⟨i, h⟩))
    ∧ (d.vertices.length ≤ i → d.get_vertex ⟨i⟩ = none)
    ∧ (∀ (h : i < d.halfedges.length), d.get_half_edge ⟨i⟩ = some (d.halfedges.get ⟨i, h⟩))
    ∧ (d.halfedges.length ≤ i → d.get_half_edge ⟨i⟩ = none)
    ∧ (∀ (h : i < d.faces.length), d.get_face ⟨i⟩ = some (d.faces.get ⟨i, h⟩))
    ∧ (d.faces.length ≤ i → d.get_face ⟨i⟩ = none) := by
  refine ⟨?_, ?_, ?_, ?_, ?_, ?_⟩
  · intro h
    unfold Diagram.get_vertex
    rw [List.getElem?_eq_getElem h]
    simp
  · intro h
    unfold Diagram.get_vertex
    exact List.getElem?_eq_none h
  · intro h
    unfold Diagram.get_half_edge
    rw [List.getElem?_eq_getElem h]
    simp
  · intro h
    unfold Diagram.get_half_edge
    exact List.getElem?_eq_none h
  · intro h
    unfold Diagram.get_face
    rw [List.getElem?_eq_getElem h]
    simp
  · intro h
    unfold Diagram.get_face
    exact List.getElem?_eq_none h

/-- C10 witness: a one-vertex diagram: index 0 is found, index 1 is not. -/
theorem accessors_bounds_checked_witness :
    (Diagram.mk [⟨(0, 0), ⟨0⟩⟩] [] []).get_vertex ⟨0⟩ = some ⟨(0, 0), ⟨0⟩⟩
    ∧ (Diagram.mk [⟨(0, 0), ⟨0⟩⟩] [] []).get_vertex ⟨1⟩ = none := by
  constructor
  · have h := (accessors_bounds_checked (Diagram.mk [⟨(0, 0), ⟨0⟩⟩] [] []) 0).1 (by decide)
    simpa using h
  · exact (accessors_bounds_checked (Diagram.mk [⟨(0, 0), ⟨0⟩⟩] [] []) 1).2.1 (by decide)

end Voronoi
